import Mathlib

/-!
Shallow embedding of the VC investment tracker's core data model and
record-access handlers (drizzle/tRPC CRUD over the `investments` and
`exit_details` tables), together with theorems settling the spec's claims.

Conventions of the embedding:
* the database is an explicit `Store` value (row lists plus the serial
  counter for exit ids); every handler is a pure function from the store
  to a result paired with the successor store;
* `new Date()` timestamps are passed in as an explicit `now` argument;
* decimal columns (`numeric`, `real`) are rationals; timestamps are
  integers; nullable columns are `Option`s;
* a thrown handler error is `Except.error`; the store component returned
  alongside it is the state at the moment of the throw.
-/

namespace VCTracker

/-- The `investment_status` enum of the schema. -/
inductive InvestmentStatus where
  | Active
  | Exited
  | WrittenOff
  deriving DecidableEq

/-- The `funding_round` enum of the schema. -/
inductive FundingRound where
  | PreSeed
  | Seed
  | SeriesA
  | SeriesB
  | SeriesC
  | SeriesD
  | LaterStage
  | Bridge
  deriving DecidableEq

/-- A row of the `investments` table. -/
structure Investment where
  id : Nat
  company_name : String
  investment_date : Int
  amount_invested : ℚ
  funding_round : FundingRound
  equity_percentage : ℚ
  current_valuation : Option ℚ
  status : InvestmentStatus
  notes : Option String
  created_at : Int
  updated_at : Int
  deriving DecidableEq

/-- A row of the `exit_details` table. -/
structure ExitDetails where
  id : Nat
  investment_id : Nat
  exit_date : Int
  proceeds_received : ℚ
  exit_multiple : ℚ
  notes : Option String
  created_at : Int
  deriving DecidableEq

/-- The database state: both tables, plus the serial counter assigning
fresh `exit_details.id` values. -/
structure Store where
  investments : List Investment
  exits : List ExitDetails
  nextExitId : Nat
  deriving DecidableEq

/-- Handler `getInvestmentById`: `select ... where id = input.id`, `null`
when no row matches, the first row otherwise. -/
def getInvestmentById (s : Store) (id : Nat) : Option Investment :=
  match s.investments.filter (fun i => i.id == id) with
  | [] => none
  | inv :: _ => some inv

/-- Handler `getExitDetailsByInvestmentId`: `select ... where
investment_id = input.investment_id`, `null` when no row matches, the
first row otherwise. -/
def getExitDetailsByInvestmentId (s : Store) (investment_id : Nat) :
    Option ExitDetails :=
  match s.exits.filter (fun e => e.investment_id == investment_id) with
  | [] => none
  | e :: _ => some e

/-- The `select ... where id = ...` lookup on the `exit_details` table,
as performed by the update and delete exit-details handlers. -/
def findExitById (s : Store) (id : Nat) : Option ExitDetails :=
  match s.exits.filter (fun e => e.id == id) with
  | [] => none
  | e :: _ => some e

/-- Input of the `createExitDetails` handler
(`createExitDetailsInputSchema`). -/
structure CreateExitDetailsInput where
  investment_id : Nat
  exit_date : Int
  proceeds_received : ℚ
  exit_multiple : ℚ
  notes : Option String

/-- Input of the `updateInvestment` handler
(`updateInvestmentInputSchema`): every mutable field is optional, and the
two nullable columns distinguish an absent field from an explicit null. -/
structure UpdateInvestmentInput where
  id : Nat
  company_name : Option String := none
  investment_date : Option Int := none
  amount_invested : Option ℚ := none
  funding_round : Option FundingRound := none
  equity_percentage : Option ℚ := none
  current_valuation : Option (Option ℚ) := none
  status : Option InvestmentStatus := none
  notes : Option (Option String) := none

/-- Input of the `updateExitDetails` handler
(`updateExitDetailsInputSchema`): no `investment_id` or `created_at`
field exists on this input. -/
structure UpdateExitDetailsInput where
  id : Nat
  exit_date : Option Int := none
  proceeds_received : Option ℚ := none
  exit_multiple : Option ℚ := none
  notes : Option (Option String) := none

/-- Result shape of the delete handlers. -/
structure DeleteResult where
  success : Bool
  deriving DecidableEq

/-- The exit row `createExitDetails` inserts: its serial id comes from
the store, its `created_at` from the insert time, the rest from the
input. -/
def mkNewExit (s : Store) (input : CreateExitDetailsInput) (now : Int) :
    ExitDetails :=
  { id := s.nextExitId
    investment_id := input.investment_id
    exit_date := input.exit_date
    proceeds_received := input.proceeds_received
    exit_multiple := input.exit_multiple
    notes := input.notes
    created_at := now }

/-- Handler `createExitDetails`: checks the referenced investment exists
(error otherwise), inserts the exit row, then — only when the parent's
status read before the insert is not already `Exited` — updates the
parent to `Exited` with a fresh `updated_at`. -/
def createExitDetails (s : Store) (input : CreateExitDetailsInput) (now : Int) :
    Except String ExitDetails × Store :=
  match s.investments.filter (fun i => i.id == input.investment_id) with
  | [] => (Except.error "Investment not found", s)
  | investment :: _ =>
    let newExit : ExitDetails := mkNewExit s input now
    let s1 : Store :=
      { s with exits := s.exits ++ [newExit], nextExitId := s.nextExitId + 1 }
    let s2 : Store :=
      if investment.status ≠ InvestmentStatus.Exited then
        { s1 with investments := s1.investments.map (fun i =>
            if i.id == input.investment_id then
              { i with status := InvestmentStatus.Exited, updated_at := now }
            else i) }
      else s1
    (Except.ok newExit, s2)

/-- Handler `deleteExitDetails`: fails when no exit row matches the id;
otherwise deletes the row, then unconditionally resets the parent
investment to `Active` with a fresh `updated_at`. The second error branch
mirrors the handler's dead re-check of the delete's `returning` rows. -/
def deleteExitDetails (s : Store) (id : Nat) (now : Int) :
    Except String DeleteResult × Store :=
  match s.exits.filter (fun e => e.id == id) with
  | [] => (Except.error "Exit details not found", s)
  | ed :: _ =>
    let investmentId := ed.investment_id
    let deleteResult := s.exits.filter (fun e => e.id == id)
    let s1 : Store := { s with exits := s.exits.filter (fun e => e.id != id) }
    if deleteResult.isEmpty then
      (Except.error "Failed to delete exit details", s1)
    else
      let s2 : Store := { s1 with investments := s1.investments.map (fun i =>
          if i.id == investmentId then
            { i with status := InvestmentStatus.Active, updated_at := now }
          else i) }
      (Except.ok { success := true }, s2)

/-- Handler `deleteInvestment`: deletes the investment row; the schema's
`onDelete: cascade` on `exit_details.investment_id` removes the
associated exit rows in the same operation; success reports whether any
investment row was affected. -/
def deleteInvestment (s : Store) (id : Nat) : DeleteResult × Store :=
  let rowCount := (s.investments.filter (fun i => i.id == id)).length
  let s1 : Store :=
    { s with
      investments := s.investments.filter (fun i => i.id != id)
      exits := s.exits.filter (fun e => e.investment_id != id) }
  ({ success := decide (0 < rowCount) }, s1)

/-- The `set { ... }` object `updateInvestment` builds: `updated_at` is
always refreshed, and each mutable column is included only when the input
carries that field. -/
def applyInvestmentUpdate (input : UpdateInvestmentInput) (now : Int)
    (i : Investment) : Investment :=
  { i with
    updated_at := now
    company_name := input.company_name.getD i.company_name
    investment_date := input.investment_date.getD i.investment_date
    amount_invested := input.amount_invested.getD i.amount_invested
    funding_round := input.funding_round.getD i.funding_round
    equity_percentage := input.equity_percentage.getD i.equity_percentage
    current_valuation := input.current_valuation.getD i.current_valuation
    status := input.status.getD i.status
    notes := input.notes.getD i.notes }

/-- Handler `updateInvestment`: fails when no investment matches the id;
otherwise applies the partial update to every matching row and returns
the first updated row. -/
def updateInvestment (s : Store) (input : UpdateInvestmentInput) (now : Int) :
    Except String Investment × Store :=
  match s.investments.filter (fun i => i.id == input.id) with
  | [] => (Except.error "Investment not found", s)
  | existing :: _ =>
    let s1 : Store := { s with investments := s.investments.map (fun i =>
        if i.id == input.id then applyInvestmentUpdate input now i else i) }
    (Except.ok (applyInvestmentUpdate input now existing), s1)

/-- The `updateData` object `updateExitDetails` builds: only the provided
fields are written; `investment_id` and `created_at` are never among
them, and exit rows carry no `updated_at` column. -/
def applyExitDetailsUpdate (input : UpdateExitDetailsInput)
    (e : ExitDetails) : ExitDetails :=
  { e with
    exit_date := input.exit_date.getD e.exit_date
    proceeds_received := input.proceeds_received.getD e.proceeds_received
    exit_multiple := input.exit_multiple.getD e.exit_multiple
    notes := input.notes.getD e.notes }

/-- Handler `updateExitDetails`: fails when no exit row matches the id;
otherwise applies the partial update to every matching row and returns
the first updated row. -/
def updateExitDetails (s : Store) (input : UpdateExitDetailsInput) :
    Except String ExitDetails × Store :=
  match s.exits.filter (fun e => e.id == input.id) with
  | [] => (Except.error "Exit details not found", s)
  | existing :: _ =>
    let s1 : Store := { s with exits := s.exits.map (fun e =>
        if e.id == input.id then applyExitDetailsUpdate input e else e) }
    (Except.ok (applyExitDetailsUpdate input existing), s1)

/-- The dashboard's `handleCreateExit` flow (App component): a
`createExitDetails` mutation, followed unconditionally by an
`updateInvestment` mutation setting the parent's status to `Exited`. -/
def handleCreateExit (s : Store) (input : CreateExitDetailsInput)
    (now1 now2 : Int) : Except String Unit × Store :=
  match createExitDetails s input now1 with
  | (Except.error msg, s1) => (Except.error msg, s1)
  | (Except.ok _, s1) =>
    match updateInvestment s1
        { id := input.investment_id, status := some InvestmentStatus.Exited }
        now2 with
    | (Except.error msg, s2) => (Except.error msg, s2)
    | (Except.ok _, s2) => (Except.ok (), s2)

/-- JS truthiness of `inv.current_valuation || inv.amount_invested` on a
`number | null` value: the fallback is taken when the valuation is null
or zero, both being falsy. -/
def valuationOrAmount (current_valuation : Option ℚ) (amount : ℚ) : ℚ :=
  match current_valuation with
  | some v => if v == 0 then amount else v
  | none => amount

/-- Dashboard metric `totalInvested` (App component): a reduce over the
fetched investments summing `amount_invested`. -/
def totalInvested (s : Store) : ℚ :=
  s.investments.foldl (fun sum inv => sum + inv.amount_invested) 0

/-- Dashboard metric `totalCurrentValue` (App component): a reduce over
the fetched investments adding, per investment, the proceeds of its
loaded exit record when the exit-details map has one, else
`current_valuation || amount_invested`. -/
def totalCurrentValue (s : Store) : ℚ :=
  s.investments.foldl (fun sum inv =>
    match getExitDetailsByInvestmentId s inv.id with
    | some exitDetail => sum + exitDetail.proceeds_received
    | none => sum + valuationOrAmount inv.current_valuation inv.amount_invested)
    0

/-- Dashboard metric `totalRealized` (App component): a reduce over the
values of the exit-details map — one entry per fetched investment that
has an exit record — summing `proceeds_received`. -/
def totalRealized (s : Store) : ℚ :=
  (s.investments.filterMap
    (fun inv => getExitDetailsByInvestmentId s inv.id)).foldl
    (fun sum ex => sum + ex.proceeds_received) 0

/-- The spec's wording of total invested: the sum of all
`amount_invested` values. -/
def specTotalInvested (s : Store) : ℚ :=
  (s.investments.map (fun inv => inv.amount_invested)).sum

/-- The spec's wording of portfolio value: per investment, its exit
proceeds when it has an exit record, else its current valuation when
known, else its amount invested; summed. -/
def specPortfolioValue (s : Store) : ℚ :=
  (s.investments.map (fun inv =>
    match getExitDetailsByInvestmentId s inv.id with
    | some ex => ex.proceeds_received
    | none =>
      match inv.current_valuation with
      | some v => v
      | none => inv.amount_invested)).sum

/-- The spec's wording of total realized: the sum of exit proceeds across
investments that have exit records. -/
def specTotalRealized (s : Store) : ℚ :=
  ((s.investments.filterMap
    (fun inv => getExitDetailsByInvestmentId s inv.id)).map
    (fun ex => ex.proceeds_received)).sum

/-- A concrete active investment used to exercise the handlers. -/
def invActive : Investment :=
  { id := 1
    company_name := "Acme"
    investment_date := 10
    amount_invested := 100
    funding_round := FundingRound.Seed
    equity_percentage := 10
    current_valuation := some 500
    status := InvestmentStatus.Active
    notes := none
    created_at := 10
    updated_at := 10 }

/-- A concrete already-exited investment used to exercise the handlers. -/
def invExited : Investment :=
  { id := 2
    company_name := "Beta"
    investment_date := 20
    amount_invested := 40
    funding_round := FundingRound.SeriesA
    equity_percentage := 5
    current_valuation := none
    status := InvestmentStatus.Exited
    notes := none
    created_at := 20
    updated_at := 20 }

/-- A concrete exit record belonging to `invExited`. -/
def exitRec : ExitDetails :=
  { id := 1
    investment_id := 2
    exit_date := 30
    proceeds_received := 250
    exit_multiple := 5
    notes := none
    created_at := 30 }

/-- A concrete store with one active and one exited investment, the
latter carrying an exit record. -/
def demoStore : Store :=
  { investments := [invActive, invExited]
    exits := [exitRec]
    nextExitId := 2 }

/-- The store with no rows at all. -/
def emptyStore : Store :=
  { investments := [], exits := [], nextExitId := 1 }

/-- A concrete `createExitDetails` input targeting `invActive`. -/
def ceInput : CreateExitDetailsInput :=
  { investment_id := 1
    exit_date := 40
    proceeds_received := 300
    exit_multiple := 3
    notes := none }

/-- A concrete `createExitDetails` input targeting `invExited`. -/
def ceInputExited : CreateExitDetailsInput :=
  { investment_id := 2
    exit_date := 41
    proceeds_received := 60
    exit_multiple := 2
    notes := none }

/-- A concrete partial `updateInvestment` input: only the company name is
provided. -/
def uiInput : UpdateInvestmentInput :=
  { id := 1, company_name := some "NewCo" }

/-- A concrete partial `updateExitDetails` input: only the proceeds are
provided. -/
def ueInput : UpdateExitDetailsInput :=
  { id := 1, proceeds_received := some 260 }

/-- C1: `getExitDetailsByInvestmentId` returns the stored exit record of
the queried investment when one exists and `none` otherwise — never an
error — and its result does not consult the `investments` table at all,
so an investment id matching no investment behaves like any id with no
exit record. -/
theorem getExitDetailsByInvestmentId_found_or_absent (s : Store) (iid : Nat) :
    (∀ e, getExitDetailsByInvestmentId s iid = some e →
      e ∈ s.exits ∧ e.investment_id = iid) ∧
    (getExitDetailsByInvestmentId s iid = none ↔
      ∀ e ∈ s.exits, e.investment_id ≠ iid) ∧
    (∀ l : List Investment,
      getExitDetailsByInvestmentId { s with investments := l } iid =
        getExitDetailsByInvestmentId s iid) := by
  refine ⟨?_, ?_, ?_⟩
  · intro e he
    unfold getExitDetailsByInvestmentId at he
    rcases hf : s.exits.filter (fun e => e.investment_id == iid) with _ | ⟨e0, t⟩
    · rw [hf] at he; exact absurd he (by simp)
    · rw [hf] at he
      have he0 : e0 = e := by simpa using he
      subst he0
      have hmem : e0 ∈ s.exits.filter (fun e => e.investment_id == iid) := by
        rw [hf]; exact List.mem_cons_self _ _
      have := List.mem_filter.mp hmem
      exact ⟨this.1, by simpa using this.2⟩
  · unfold getExitDetailsByInvestmentId
    rcases hf : s.exits.filter (fun e => e.investment_id == iid) with _ | ⟨e0, t⟩
    · rw [hf]
      simp only [List.filter_eq_nil_iff] at hf
      simpa using hf
    · rw [hf]
      constructor
      · intro h; exact absurd h (by simp)
      · intro hall
        have hmem : e0 ∈ s.exits.filter (fun e => e.investment_id == iid) := by
          rw [hf]; exact List.mem_cons_self _ _
        have := List.mem_filter.mp hmem
        exact absurd (by simpa using this.2) (hall e0 this.1)
  · intro l
    unfold getExitDetailsByInvestmentId
    rfl

theorem getInvestmentById_some_filter {s : Store} {k : Nat} {inv : Investment}
    (h : getInvestmentById s k = some inv) :
    ∃ t, s.investments.filter (fun i => i.id == k) = inv :: t := by
  unfold getInvestmentById at h
  rcases hf : s.investments.filter (fun i => i.id == k) with _ | ⟨i0, t⟩
  · rw [hf] at h; exact absurd h (by simp)
  · rw [hf] at h
    have hi : i0 = inv := by simpa using h
    subst hi
    exact ⟨t, hf⟩

theorem getInvestmentById_none_filter {s : Store} {k : Nat}
    (h : getInvestmentById s k = none) :
    s.investments.filter (fun i => i.id == k) = [] := by
  unfold getInvestmentById at h
  rcases hf : s.investments.filter (fun i => i.id == k) with _ | ⟨i0, t⟩
  · exact hf
  · rw [hf] at h; exact absurd h (by simp)

theorem findExitById_some_filter {s : Store} {k : Nat} {e : ExitDetails}
    (h : findExitById s k = some e) :
    ∃ t, s.exits.filter (fun x => x.id == k) = e :: t := by
  unfold findExitById at h
  rcases hf : s.exits.filter (fun x => x.id == k) with _ | ⟨e0, t⟩
  · rw [hf] at h; exact absurd h (by simp)
  · rw [hf] at h
    have he : e0 = e := by simpa using h
    subst he
    exact ⟨t, hf⟩

theorem findExitById_none_filter {s : Store} {k : Nat}
    (h : findExitById s k = none) :
    s.exits.filter (fun x => x.id == k) = [] := by
  unfold findExitById at h
  rcases hf : s.exits.filter (fun x => x.id == k) with _ | ⟨e0, t⟩
  · exact hf
  · rw [hf] at h; exact absurd h (by simp)

/-- Filtering investments on an id commutes with a map that rewrites only
the rows of that id without changing any row's id — the shape of every
`update ... where id = k` the handlers issue. -/
theorem filter_id_map_inv (l : List Investment) (k : Nat)
    (f : Investment → Investment) (hid : ∀ i, (f i).id = i.id) :
    (l.map (fun i => if i.id == k then f i else i)).filter
        (fun i => i.id == k) =
      (l.filter (fun i => i.id == k)).map
        (fun i => if i.id == k then f i else i) := by
  rw [List.filter_map]
  have hcong : ∀ i ∈ l,
      ((fun i : Investment => i.id == k) ∘
        fun i => if i.id == k then f i else i) i = (i.id == k) := by
    intro i _
    by_cases hk : i.id == k
    · simp [Function.comp, hk, hid]
    · simp [Function.comp, hk]
  rw [List.filter_congr hcong]

theorem foldl_add_eq_sum {α : Type} (f : α → ℚ) (l : List α) (a : ℚ) :
    l.foldl (fun acc x => acc + f x) a = a + (l.map f).sum := by
  induction l generalizing a with
  | nil => simp
  | cons x t ih =>
    rw [List.foldl_cons, ih (a + f x), List.map_cons, List.sum_cons, add_assoc]

theorem createExitDetails_run_exited {s : Store} {input : CreateExitDetailsInput}
    {now : Int} {inv : Investment} {t : List Investment}
    (hf : s.investments.filter (fun i => i.id == input.investment_id) = inv :: t)
    (hst : inv.status = InvestmentStatus.Exited) :
    createExitDetails s input now =
      (Except.ok (mkNewExit s input now),
       { s with
         exits := s.exits ++ [mkNewExit s input now]
         nextExitId := s.nextExitId + 1 }) := by
  unfold createExitDetails
  rw [hf]
  simp [hst]

theorem createExitDetails_run_active {s : Store} {input : CreateExitDetailsInput}
    {now : Int} {inv : Investment} {t : List Investment}
    (hf : s.investments.filter (fun i => i.id == input.investment_id) = inv :: t)
    (hst : inv.status ≠ InvestmentStatus.Exited) :
    createExitDetails s input now =
      (Except.ok (mkNewExit s input now),
       { s with
         investments := s.investments.map (fun i =>
           if i.id == input.investment_id then
             { i with status := InvestmentStatus.Exited, updated_at := now }
           else i)
         exits := s.exits ++ [mkNewExit s input now]
         nextExitId := s.nextExitId + 1 }) := by
  unfold createExitDetails
  rw [hf]
  simp [hst]

theorem createExitDetails_run_none {s : Store} {input : CreateExitDetailsInput}
    {now : Int}
    (hf : s.investments.filter (fun i => i.id == input.investment_id) = []) :
    createExitDetails s input now = (Except.error "Investment not found", s) := by
  unfold createExitDetails
  rw [hf]

theorem updateInvestment_run {s : Store} {input : UpdateInvestmentInput}
    {now : Int} {inv : Investment} {t : List Investment}
    (hf : s.investments.filter (fun i => i.id == input.id) = inv :: t) :
    updateInvestment s input now =
      (Except.ok (applyInvestmentUpdate input now inv),
       { s with investments := s.investments.map (fun i =>
           if i.id == input.id then applyInvestmentUpdate input now i
           else i) }) := by
  unfold updateInvestment
  rw [hf]

theorem updateInvestment_run_none {s : Store} {input : UpdateInvestmentInput}
    {now : Int}
    (hf : s.investments.filter (fun i => i.id == input.id) = []) :
    updateInvestment s input now = (Except.error "Investment not found", s) := by
  unfold updateInvestment
  rw [hf]

theorem updateExitDetails_run {s : Store} {input : UpdateExitDetailsInput}
    {e : ExitDetails} {t : List ExitDetails}
    (hf : s.exits.filter (fun x => x.id == input.id) = e :: t) :
    updateExitDetails s input =
      (Except.ok (applyExitDetailsUpdate input e),
       { s with exits := s.exits.map (fun x =>
           if x.id == input.id then applyExitDetailsUpdate input x
           else x) }) := by
  unfold updateExitDetails
  rw [hf]

theorem updateExitDetails_run_none {s : Store} {input : UpdateExitDetailsInput}
    (hf : s.exits.filter (fun x => x.id == input.id) = []) :
    updateExitDetails s input = (Except.error "Exit details not found", s) := by
  unfold updateExitDetails
  rw [hf]

theorem deleteExitDetails_run {s : Store} {id : Nat} {now : Int}
    {ed : ExitDetails} {t : List ExitDetails}
    (hf : s.exits.filter (fun e => e.id == id) = ed :: t) :
    deleteExitDetails s id now =
      (Except.ok { success := true },
       { s with
         exits := s.exits.filter (fun e => e.id != id)
         investments := s.investments.map (fun i =>
           if i.id == ed.investment_id then
             { i with status := InvestmentStatus.Active, updated_at := now }
           else i) }) := by
  unfold deleteExitDetails
  rw [hf]
  simp

theorem deleteExitDetails_run_none {s : Store} {id : Nat} {now : Int}
    (hf : s.exits.filter (fun e => e.id == id) = []) :
    deleteExitDetails s id now = (Except.error "Exit details not found", s) := by
  unfold deleteExitDetails
  rw [hf]

/-- C2: a successful `createExitDetails` call on an existing investment
appends the exit row, and then updates the parent to `Exited` with a
fresh `updated_at` exactly when its status was not already `Exited`;
when the parent was already `Exited` the whole investments table — the
parent record included — is left untouched. -/
theorem createExitDetails_guarded_status_update
    (s : Store) (input : CreateExitDetailsInput) (now : Int) (inv : Investment)
    (h : getInvestmentById s input.investment_id = some inv) :
    ∃ e s₂, createExitDetails s input now = (Except.ok e, s₂) ∧
      s₂.exits = s.exits ++ [e] ∧
      e.investment_id = input.investment_id ∧
      (inv.status = InvestmentStatus.Exited →
        s₂.investments = s.investments) ∧
      (inv.status ≠ InvestmentStatus.Exited →
        s₂.investments = s.investments.map (fun i =>
          if i.id == input.investment_id then
            { i with status := InvestmentStatus.Exited, updated_at := now }
          else i)) := by
  obtain ⟨t, hf⟩ := getInvestmentById_some_filter h
  by_cases hst : inv.status = InvestmentStatus.Exited
  · exact ⟨mkNewExit s input now, _, createExitDetails_run_exited hf hst,
      rfl, rfl, fun _ => rfl, fun hne => absurd hst hne⟩
  · exact ⟨mkNewExit s input now, _, createExitDetails_run_active hf hst,
      rfl, rfl, fun heq => absurd heq hst, fun _ => rfl⟩

/-- C2 witness: creating an exit for the concrete active investment of
`demoStore` appends the row and flips that investment to `Exited`. -/
theorem createExitDetails_guarded_status_update_concrete :
    ∃ e s₂, createExitDetails demoStore ceInput 50 = (Except.ok e, s₂) ∧
      s₂.exits = demoStore.exits ++ [e] ∧
      e.investment_id = ceInput.investment_id ∧
      (invActive.status = InvestmentStatus.Exited →
        s₂.investments = demoStore.investments) ∧
      (invActive.status ≠ InvestmentStatus.Exited →
        s₂.investments = demoStore.investments.map (fun i =>
          if i.id == ceInput.investment_id then
            { i with status := InvestmentStatus.Exited, updated_at := 50 }
          else i)) :=
  createExitDetails_guarded_status_update demoStore ceInput 50 invActive rfl

/-- C3: `deleteExitDetails` fails—leaving the store as it was—when no
exit row matches the id; otherwise it deletes the row and then
unconditionally resets the parent investment to `Active` with a fresh
`updated_at`, whatever the parent's prior status. -/
theorem deleteExitDetails_notfound_or_resets_parent
    (s : Store) (id : Nat) (now : Int) :
    (findExitById s id = none →
      ∃ m, deleteExitDetails s id now = (Except.error m, s)) ∧
    (∀ ed, findExitById s id = some ed →
      deleteExitDetails s id now =
        (Except.ok { success := true },
         { s with
           exits := s.exits.filter (fun e => e.id != id)
           investments := s.investments.map (fun i =>
             if i.id == ed.investment_id then
               { i with status := InvestmentStatus.Active, updated_at := now }
             else i) })) := by
  constructor
  · intro h
    exact ⟨_, deleteExitDetails_run_none (findExitById_none_filter h)⟩
  · intro ed h
    obtain ⟨t, hf⟩ := findExitById_some_filter h
    exact deleteExitDetails_run hf

/-- C4: an id that matches no stored investment makes `getInvestmentById`
return `none` (not an error), makes `deleteInvestment` report
`success = false` (not an error), and makes `updateInvestment` fail with
an error rather than silently doing nothing. -/
theorem missing_investment_id_behaviour
    (s : Store) (k : Nat) (input : UpdateInvestmentInput) (now : Int)
    (hmiss : ∀ inv ∈ s.investments, inv.id ≠ k)
    (hid : input.id = k) :
    getInvestmentById s k = none ∧
    (deleteInvestment s k).1 = { success := false } ∧
    (∃ m, updateInvestment s input now = (Except.error m, s)) := by
  have hfe : s.investments.filter (fun i => i.id == k) = [] := by
    rw [List.filter_eq_nil_iff]
    intro i hi
    simpa using hmiss i hi
  refine ⟨?_, ?_, ?_⟩
  · unfold getInvestmentById
    rw [hfe]
  · unfold deleteInvestment
    simp [hfe]
  · exact ⟨_, updateInvestment_run_none (by rw [hid]; exact hfe)⟩

/-- C4 witness: id 7 exists nowhere in `demoStore`; the lookup returns
`none`, the delete reports `success = false`, the update errors. -/
theorem missing_investment_id_behaviour_concrete :
    getInvestmentById demoStore 7 = none ∧
    (deleteInvestment demoStore 7).1 = { success := false } ∧
    (∃ m, updateInvestment demoStore { id := 7 } 60 =
      (Except.error m, demoStore)) :=
  missing_investment_id_behaviour demoStore 7 { id := 7 } 60 (by decide) rfl

/-- C5: `updateInvestment` on an existing investment writes exactly the
fields present in the input, leaves every absent field at its stored
value, and refreshes `updated_at` on every call regardless of which
fields were provided. -/
theorem updateInvestment_partial_update
    (s : Store) (input : UpdateInvestmentInput) (now : Int) (inv : Investment)
    (h : getInvestmentById s input.id = some inv) :
    ∃ inv₂ s₂, updateInvestment s input now = (Except.ok inv₂, s₂) ∧
      inv₂.updated_at = now ∧
      inv₂.id = inv.id ∧
      inv₂.created_at = inv.created_at ∧
      (input.company_name = none → inv₂.company_name = inv.company_name) ∧
      (∀ v, input.company_name = some v → inv₂.company_name = v) ∧
      (input.investment_date = none →
        inv₂.investment_date = inv.investment_date) ∧
      (∀ v, input.investment_date = some v → inv₂.investment_date = v) ∧
      (input.amount_invested = none →
        inv₂.amount_invested = inv.amount_invested) ∧
      (∀ v, input.amount_invested = some v → inv₂.amount_invested = v) ∧
      (input.funding_round = none → inv₂.funding_round = inv.funding_round) ∧
      (∀ v, input.funding_round = some v → inv₂.funding_round = v) ∧
      (input.equity_percentage = none →
        inv₂.equity_percentage = inv.equity_percentage) ∧
      (∀ v, input.equity_percentage = some v → inv₂.equity_percentage = v) ∧
      (input.current_valuation = none →
        inv₂.current_valuation = inv.current_valuation) ∧
      (∀ v, input.current_valuation = some v → inv₂.current_valuation = v) ∧
      (input.status = none → inv₂.status = inv.status) ∧
      (∀ v, input.status = some v → inv₂.status = v) ∧
      (input.notes = none → inv₂.notes = inv.notes) ∧
      (∀ v, input.notes = some v → inv₂.notes = v) := by
  obtain ⟨t, hf⟩ := getInvestmentById_some_filter h
  refine ⟨applyInvestmentUpdate input now inv, _, updateInvestment_run hf,
    rfl, rfl, rfl, ?_, ?_, ?_, ?_, ?_, ?_, ?_, ?_, ?_, ?_, ?_, ?_, ?_, ?_,
    ?_, ?_⟩
  all_goals
    first
    | (intro hx; simp [applyInvestmentUpdate, hx])
    | (intro v hx; simp [applyInvestmentUpdate, hx])

/-- C5 witness: updating `invActive` with only a new company name keeps
its stored amount, valuation, status and notes, takes the new name, and
refreshes `updated_at`. -/
theorem updateInvestment_partial_update_concrete :
    ∃ inv₂ s₂, updateInvestment demoStore uiInput 70 = (Except.ok inv₂, s₂) ∧
      inv₂.updated_at = 70 ∧
      inv₂.company_name = "NewCo" ∧
      inv₂.amount_invested = invActive.amount_invested ∧
      inv₂.current_valuation = invActive.current_valuation ∧
      inv₂.status = invActive.status ∧
      inv₂.notes = invActive.notes := by
  obtain ⟨inv₂, s₂, hrun, hupd, _, _, _, hcn, _, _, ham, _, _, _, _, _,
      hcv, _, hstn, _, hnn, _⟩ :=
    updateInvestment_partial_update demoStore uiInput 70 invActive rfl
  exact ⟨inv₂, s₂, hrun, hupd, hcn "NewCo" rfl, ham rfl, hcv rfl, hstn rfl,
    hnn rfl⟩

/-- C6: deleting an investment that has an exit record removes both the
investment and the exit record in the one operation and reports
`success = true`; and for any id, `success = true` exactly when an
investment row was actually removed. -/
theorem deleteInvestment_cascade
    (s : Store) (inv : Investment) (e : ExitDetails)
    (hinv : inv ∈ s.investments) (_he : e ∈ s.exits)
    (hrel : e.investment_id = inv.id) :
    (deleteInvestment s inv.id).1 = { success := true } ∧
    (∀ i ∈ (deleteInvestment s inv.id).2.investments, i.id ≠ inv.id) ∧
    (∀ x ∈ (deleteInvestment s inv.id).2.exits, x.investment_id ≠ inv.id) ∧
    inv ∉ (deleteInvestment s inv.id).2.investments ∧
    e ∉ (deleteInvestment s inv.id).2.exits ∧
    (∀ k, (deleteInvestment s k).1 = { success := true } ↔
      ∃ i ∈ s.investments, i.id = k) := by
  have hmemf : inv ∈ s.investments.filter (fun i => i.id == inv.id) :=
    List.mem_filter.mpr ⟨hinv, by simp⟩
  refine ⟨?_, ?_, ?_, ?_, ?_, ?_⟩
  · unfold deleteInvestment
    simp only [DeleteResult.mk.injEq, decide_eq_true_eq]
    exact List.length_pos.mpr (List.ne_nil_of_mem hmemf)
  · intro i hi
    unfold deleteInvestment at hi
    simp only at hi
    have := (List.mem_filter.mp hi).2
    simpa using this
  · intro x hx
    unfold deleteInvestment at hx
    simp only at hx
    have := (List.mem_filter.mp hx).2
    simpa using this
  · intro hmem
    unfold deleteInvestment at hmem
    simp only at hmem
    have := (List.mem_filter.mp hmem).2
    simp at this
  · intro hmem
    unfold deleteInvestment at hmem
    simp only at hmem
    have := (List.mem_filter.mp hmem).2
    rw [hrel] at this
    simp at this
  · intro k
    unfold deleteInvestment
    simp only [DeleteResult.mk.injEq, decide_eq_true_eq]
    constructor
    · intro hpos
      obtain ⟨i, hi⟩ := List.exists_mem_of_length_pos hpos
      have := List.mem_filter.mp hi
      exact ⟨i, this.1, by simpa using this.2⟩
    · rintro ⟨i, hi, hik⟩
      exact List.length_pos.mpr
        (List.ne_nil_of_mem (List.mem_filter.mpr ⟨hi, by simp [hik]⟩))

/-- C6 witness: deleting `invExited` from `demoStore` removes it together
with its exit record `exitRec` and reports success. -/
theorem deleteInvestment_cascade_concrete :
    (deleteInvestment demoStore invExited.id).1 = { success := true } ∧
    (∀ i ∈ (deleteInvestment demoStore invExited.id).2.investments,
      i.id ≠ invExited.id) ∧
    (∀ x ∈ (deleteInvestment demoStore invExited.id).2.exits,
      x.investment_id ≠ invExited.id) ∧
    invExited ∉ (deleteInvestment demoStore invExited.id).2.investments ∧
    exitRec ∉ (deleteInvestment demoStore invExited.id).2.exits ∧
    (∀ k, (deleteInvestment demoStore k).1 = { success := true } ↔
      ∃ i ∈ demoStore.investments, i.id = k) :=
  deleteInvestment_cascade demoStore invExited exitRec (by decide) (by decide)
    rfl

/-- C8: each of the four mutating handlers checks its target row exists
and raises its not-found error before any write, so a not-found failure
leaves the store exactly as it was. -/
theorem notfound_mutations_leave_store_unchanged
    (s : Store) (ui : UpdateInvestmentInput) (ue : UpdateExitDetailsInput)
    (ci : CreateExitDetailsInput) (did : Nat) (now : Int)
    (h1 : getInvestmentById s ui.id = none)
    (h2 : findExitById s ue.id = none)
    (h3 : findExitById s did = none)
    (h4 : getInvestmentById s ci.investment_id = none) :
    (∃ m, updateInvestment s ui now = (Except.error m, s)) ∧
    (∃ m, updateExitDetails s ue = (Except.error m, s)) ∧
    (∃ m, deleteExitDetails s did now = (Except.error m, s)) ∧
    (∃ m, createExitDetails s ci now = (Except.error m, s)) :=
  ⟨⟨_, updateInvestment_run_none (getInvestmentById_none_filter h1)⟩,
   ⟨_, updateExitDetails_run_none (findExitById_none_filter h2)⟩,
   ⟨_, deleteExitDetails_run_none (findExitById_none_filter h3)⟩,
   ⟨_, createExitDetails_run_none (getInvestmentById_none_filter h4)⟩⟩

/-- C8 witness: on the empty store every one of the four mutations fails
and returns the store unchanged. -/
theorem notfound_mutations_leave_store_unchanged_concrete :
    (∃ m, updateInvestment emptyStore { id := 3 } 80 =
      (Except.error m, emptyStore)) ∧
    (∃ m, updateExitDetails emptyStore { id := 3 } =
      (Except.error m, emptyStore)) ∧
    (∃ m, deleteExitDetails emptyStore 3 80 =
      (Except.error m, emptyStore)) ∧
    (∃ m, createExitDetails emptyStore ceInputExited 80 =
      (Except.error m, emptyStore)) :=
  notfound_mutations_leave_store_unchanged emptyStore { id := 3 } { id := 3 }
    ceInputExited 3 80 rfl rfl rfl rfl

/-- C10: `updateExitDetails` on an existing exit record never modifies
`investment_id` or `created_at` — neither on the returned record nor on
any stored exit row — and leaves the investments table alone; the input
carries no such fields to begin with. -/
theorem updateExitDetails_keeps_parent_and_creation
    (s : Store) (input : UpdateExitDetailsInput) (e : ExitDetails)
    (h : findExitById s input.id = some e) :
    ∃ e₂ s₂, updateExitDetails s input = (Except.ok e₂, s₂) ∧
      e₂.investment_id = e.investment_id ∧
      e₂.created_at = e.created_at ∧
      s₂.exits.map (fun x => (x.investment_id, x.created_at)) =
        s.exits.map (fun x => (x.investment_id, x.created_at)) ∧
      s₂.investments = s.investments := by
  obtain ⟨t, hf⟩ := findExitById_some_filter h
  refine ⟨applyExitDetailsUpdate input e, _, updateExitDetails_run hf,
    rfl, rfl, ?_, rfl⟩
  rw [List.map_map]
  apply List.map_congr_left
  intro x _
  by_cases hx : x.id == input.id
  · simp [Function.comp, hx, applyExitDetailsUpdate]
  · simp [Function.comp, hx]

/-- C10 witness: updating `exitRec`'s proceeds keeps its parent
investment id and creation timestamp, on the result and in the store. -/
theorem updateExitDetails_keeps_parent_and_creation_concrete :
    ∃ e₂ s₂, updateExitDetails demoStore ueInput = (Except.ok e₂, s₂) ∧
      e₂.investment_id = exitRec.investment_id ∧
      e₂.created_at = exitRec.created_at ∧
      s₂.exits.map (fun x => (x.investment_id, x.created_at)) =
        demoStore.exits.map (fun x => (x.investment_id, x.created_at)) ∧
      s₂.investments = demoStore.investments :=
  updateExitDetails_keeps_parent_and_creation demoStore ueInput exitRec rfl

/-- C9: the dashboard's exit-creation flow follows `createExitDetails`
with an unconditional `updateInvestment` setting the parent to `Exited`,
so recording an exit through the UI always leaves the parent with status
`Exited` and `updated_at` refreshed to the second mutation's time — also
when the parent was already `Exited` and the server-side handler alone
would have left it untouched. -/
theorem uiCreateExit_always_refreshes_parent
    (s : Store) (input : CreateExitDetailsInput) (now1 now2 : Int)
    (inv : Investment)
    (h : getInvestmentById s input.investment_id = some inv) :
    ∃ s₂, handleCreateExit s input now1 now2 = (Except.ok (), s₂) ∧
      ∃ inv₂, getInvestmentById s₂ input.investment_id = some inv₂ ∧
        inv₂.status = InvestmentStatus.Exited ∧
        inv₂.updated_at = now2 := by
  obtain ⟨t, hf⟩ := getInvestmentById_some_filter h
  have hkid : (inv.id == input.investment_id) = true := by
    have hmem : inv ∈ s.investments.filter
        (fun i => i.id == input.investment_id) := by
      rw [hf]; exact List.mem_cons_self _ _
    exact (List.mem_filter.mp hmem).2
  have step1 : ∃ e1 s1, createExitDetails s input now1 = (Except.ok e1, s1) ∧
      ∃ inv1 t1,
        s1.investments.filter (fun i => i.id == input.investment_id) =
          inv1 :: t1 ∧
        (inv1.id == input.investment_id) = true := by
    by_cases hst : inv.status = InvestmentStatus.Exited
    · exact ⟨_, _, createExitDetails_run_exited hf hst, inv, t, hf, hkid⟩
    · refine ⟨_, _, createExitDetails_run_active hf hst, ?_⟩
      have hfm := filter_id_map_inv s.investments input.investment_id
        (fun i =>
          { i with status := InvestmentStatus.Exited, updated_at := now1 })
        (fun i => rfl)
      rw [hf, List.map_cons] at hfm
      refine ⟨_, _, hfm, ?_⟩
      by_cases hk : inv.id == input.investment_id
      · simp only [hk, if_true]
      · exact absurd hkid hk
  obtain ⟨e1, s1, hrun1, inv1, t1, hf1, hkid1⟩ := step1
  have hrun2 := @updateInvestment_run s1
    { id := input.investment_id, status := some InvestmentStatus.Exited }
    now2 inv1 t1 hf1
  have hfm2 := filter_id_map_inv s1.investments input.investment_id
    (applyInvestmentUpdate
      { id := input.investment_id, status := some InvestmentStatus.Exited }
      now2)
    (fun i => rfl)
  rw [hf1, List.map_cons] at hfm2
  have hAll : handleCreateExit s input now1 now2 =
      (Except.ok (),
       (updateInvestment s1
         { id := input.investment_id,
           status := some InvestmentStatus.Exited } now2).2) := by
    unfold handleCreateExit
    rw [hrun1]
    dsimp only
    rw [hrun2]
  refine ⟨_, hAll, ?_⟩
  rw [hrun2]
  dsimp only
  refine ⟨applyInvestmentUpdate
    { id := input.investment_id, status := some InvestmentStatus.Exited }
    now2 inv1, ?_, rfl, rfl⟩
  unfold getInvestmentById
  dsimp only
  rw [hfm2]
  simp [hkid1]

/-- C9 witness: recording an exit through the UI flow for the concrete
already-`Exited` investment of `demoStore` still leaves it `Exited` with
`updated_at` refreshed to the second mutation's time. -/
theorem uiCreateExit_always_refreshes_parent_concrete :
    ∃ s₂, handleCreateExit demoStore ceInputExited 90 91 =
        (Except.ok (), s₂) ∧
      ∃ inv₂, getInvestmentById s₂ ceInputExited.investment_id = some inv₂ ∧
        inv₂.status = InvestmentStatus.Exited ∧
        inv₂.updated_at = 91 :=
  uiCreateExit_always_refreshes_parent demoStore ceInputExited 90 91 invExited
    rfl

/-- C7: over any fetched set whose current valuations are never the
falsy value zero — the creation and update schemas only admit positive
valuations — the dashboard's reductions compute exactly the spec's three
aggregates: total invested is the sum of amounts, portfolio value sums
exit proceeds when an exit record exists, else the known current
valuation, else the amount invested, and total realized sums exit
proceeds across investments that have exit records. -/
theorem dashboard_metrics_match_spec (s : Store)
    (hval : ∀ inv ∈ s.investments, inv.current_valuation ≠ some 0) :
    totalInvested s = specTotalInvested s ∧
    totalCurrentValue s = specPortfolioValue s ∧
    totalRealized s = specTotalRealized s := by
  refine ⟨?_, ?_, ?_⟩
  · unfold totalInvested specTotalInvested
    rw [foldl_add_eq_sum, zero_add]
  · unfold totalCurrentValue specPortfolioValue
    have hfun : (fun (sum : ℚ) (inv : Investment) =>
        match getExitDetailsByInvestmentId s inv.id with
        | some exitDetail => sum + exitDetail.proceeds_received
        | none =>
          sum + valuationOrAmount inv.current_valuation inv.amount_invested) =
        (fun (sum : ℚ) (inv : Investment) => sum +
          (match getExitDetailsByInvestmentId s inv.id with
           | some exitDetail => exitDetail.proceeds_received
           | none =>
             valuationOrAmount inv.current_valuation inv.amount_invested)) := by
      funext sum inv
      cases getExitDetailsByInvestmentId s inv.id <;> rfl
    rw [hfun, foldl_add_eq_sum, zero_add]
    congr 1
    apply List.map_congr_left
    intro inv hmem
    cases getExitDetailsByInvestmentId s inv.id with
    | some ex => rfl
    | none =>
      cases hcv : inv.current_valuation with
      | none => rfl
      | some v =>
        have hv : v ≠ 0 := by
          intro h0
          exact hval inv hmem (by rw [hcv, h0])
        simp [valuationOrAmount, hv]
  · unfold totalRealized specTotalRealized
    rw [foldl_add_eq_sum, zero_add]

/-- C7 witness: on `demoStore` — one active investment with a valuation,
one exited investment with an exit record — the three dashboard
reductions agree with the spec's aggregates. -/
theorem dashboard_metrics_match_spec_concrete :
    totalInvested demoStore = specTotalInvested demoStore ∧
    totalCurrentValue demoStore = specPortfolioValue demoStore ∧
    totalRealized demoStore = specTotalRealized demoStore :=
  dashboard_metrics_match_spec demoStore (by decide)

end VCTracker
